import Mathlib

/-
Verification of the vscode-dapr discovery engine.

Shallow embedding of:
  * `MulticastDnsMdnsClient.onResponse` and the service registry
    (src/services/mdnsClient.ts, and its near-duplicate in the mdns
    provider module),
  * `MdnsBasedDaprApplicationProvider` (toApplication and the
    onServiceUp / onServiceDown handlers),
  * `ProcessBasedDaprApplicationProvider` (getAppId, getHttpPort,
    toApplication, refreshApplications, getApplications).

JavaScript numbers appearing as parse results are embedded as
`Option Int`, with `none` standing for NaN (the result of `parseInt` on a
non-numeric string).  Promises are embedded by passing the outcome of the
underlying asynchronous call (`Except`) as an explicit argument; event
emitter firings are counted as a `Nat` result.
-/

set_option autoImplicit false

namespace Dapr

/-! ## mDNS client data model (mdnsClient.ts) -/

/-- Embedding of the `MdnsService` interface: a service record built
incrementally from one packet. -/
structure MdnsService where
  address : String
  fqdn : String
  name : String
  port : Nat
  text : List String
deriving DecidableEq, Repr

/-- Payload of a DNS answer, tagged by record type as the classifier
functions (`isPointerAnswer`, `isServerAnswer`, `isTextAnswer`,
`isAddressAnswer`) distinguish them.  `addr` stands for an `A` record;
`other` covers every record type the client filters out. -/
inductive RData where
  | ptr (target : String)
  | srv (target : String) (port : Nat)
  | txt (entries : List String)
  | addr (address : String)
  | other
deriving DecidableEq, Repr

/-- One answer in an mDNS response packet: owner name, TTL and typed
payload. -/
structure Answer where
  name : String
  ttl : Nat
  rdata : RData
deriving DecidableEq, Repr

/-- The client's `knownServices` object: a string-keyed map, embedded as an
association list.  Reachable registries have unique keys (each insertion is
guarded by an absence check). -/
abbrev Registry := List (String × MdnsService)

/-- Property lookup `knownServices[name]`. -/
def regFind (name : String) : Registry → Option MdnsService
  | [] => none
  | (k, v) :: rest => if k = name then some v else regFind name rest

/-- Property deletion `delete knownServices[name]`. -/
def removeKey (name : String) : Registry → Registry
  | [] => []
  | (k, v) :: rest =>
    if k = name then removeKey name rest else (k, v) :: removeKey name rest

/-- The blank candidate staged for a nonzero-TTL PTR answer:
`{ address: '', fqdn: '', name, port: 0, text: [] }`. -/
def blankService (name : String) : MdnsService :=
  { address := "", fqdn := "", name := name, port := 0, text := [] }

/-- First phase of `onResponse`: partition the packet's PTR answers owned
by the bound service type into up-candidates (nonzero TTL, staged as blank
service records) and down-candidates (zero TTL, staged by name), in record
order. -/
def ptrScan (typ : String) : List Answer → List MdnsService × List String
  | [] => ([], [])
  | a :: rest =>
    let acc := ptrScan typ rest
    if a.name = typ then
      match a.rdata with
      | .ptr target =>
        if a.ttl ≠ 0 then (blankService target :: acc.1, acc.2)
        else (acc.1, target :: acc.2)
      | _ => acc
    else acc

/-- The SRV loop of `onResponse`: every SRV answer owned by the candidate
name assigns `fqdn` and `port` (so the last matching SRV wins). -/
def srvFold (s : MdnsService) : List Answer → MdnsService
  | [] => s
  | a :: rest =>
    match a.rdata with
    | .srv target port =>
      if a.name = s.name then
        srvFold { s with fqdn := target, port := port } rest
      else srvFold s rest
    | _ => srvFold s rest

/-- The TXT loop of `onResponse`: every TXT answer owned by the candidate
name assigns `text`. -/
def txtFold (s : MdnsService) : List Answer → MdnsService
  | [] => s
  | a :: rest =>
    match a.rdata with
    | .txt entries =>
      if a.name = s.name then txtFold { s with text := entries } rest
      else txtFold s rest
    | _ => txtFold s rest

/-- The A loop of `onResponse`: every A answer owned by the candidate's
(already assigned) `fqdn` assigns `address`. -/
def aFold (s : MdnsService) : List Answer → MdnsService
  | [] => s
  | a :: rest =>
    match a.rdata with
    | .addr address =>
      if a.name = s.fqdn then aFold { s with address := address } rest
      else aFold s rest
    | _ => aFold s rest

/-- Second phase of `onResponse` for one candidate: run the SRV, TXT and A
loops over the same packet, in that order. -/
def resolveService (packet : List Answer) (s : MdnsService) : MdnsService :=
  aFold (txtFold (srvFold s packet) packet) packet

/-- Up phase of `onResponse`: for each candidate, resolve it against the
packet and, when `service.fqdn` is truthy and the name is not yet known,
insert it into the registry and fire `onServiceUp`.  Returns the updated
registry and the fired up-events in order. -/
def processUps (packet : List Answer) : Registry → List MdnsService →
    Registry × List MdnsService
  | reg, [] => (reg, [])
  | reg, s0 :: rest =>
    let s := resolveService packet s0
    if s.fqdn ≠ "" ∧ regFind s.name reg = none then
      let r := processUps packet ((s.name, s) :: reg) rest
      (r.1, s :: r.2)
    else processUps packet reg rest

/-- Down phase of `onResponse`: for each down-candidate name present in the
registry, delete it and fire `onServiceDown` with the stored record; absent
names are skipped. -/
def processDowns : Registry → List String → Registry × List MdnsService
  | reg, [] => (reg, [])
  | reg, n :: rest =>
    match regFind n reg with
    | some s =>
      let r := processDowns (removeKey n reg) rest
      (r.1, s :: r.2)
    | none => processDowns reg rest

/-- Embedding of `MulticastDnsMdnsClient.onResponse`: given the bound
service type, the current registry and one packet, return the new registry,
the `onServiceUp` events and the `onServiceDown` events, in firing order. -/
def onResponse (typ : String) (reg : Registry) (packet : List Answer) :
    Registry × List MdnsService × List MdnsService :=
  let ups := (ptrScan typ packet).1
  let downs := (ptrScan typ packet).2
  let r1 := processUps packet reg ups
  let r2 := processDowns r1.1 downs
  (r2.1, r1.2, r2.2)

/-- Embedding of `stop()`'s effect on the registry:
`this.knownServices = {}`. -/
def stopRegistry : Registry := []

example :
    onResponse "t" []
      [⟨"t", 120, .ptr "svcA"⟩, ⟨"svcA", 120, .srv "host.local" 50001⟩] =
    ([("svcA", ⟨"", "host.local", "svcA", 50001, []⟩)],
      [⟨"", "host.local", "svcA", 50001, []⟩], []) := by decide

example :
    onResponse "t" [("svcA", blankService "svcA")]
      [⟨"t", 0, .ptr "svcA"⟩] =
    ([], [], [blankService "svcA"]) := by decide

/-! ## Application data model and JS number parsing -/

/-- Embedding of the `DaprApplication` interface.  `httpPort` is a JS
number obtained from `parseInt`, embedded as `Option Int` with `none`
standing for NaN; `pid` is optional in the interface. -/
structure DaprApplication where
  appId : String
  httpPort : Option Int
  pid : Option Int
deriving DecidableEq, Repr

/-- Digits-to-value accumulator for `parseIntJs`. -/
def digitsToNat (l : List Char) : Nat :=
  l.foldl (fun n c => 10 * n + (c.toNat - '0'.toNat)) 0

/-- Leading decimal digit run for `parseIntJs`; `none` when the text does
not start with a digit. -/
def parseDigits (l : List Char) : Option Nat :=
  let ds := l.takeWhile Char.isDigit
  if ds.isEmpty then none else some (digitsToNat ds)

/-- Embedding of JavaScript `parseInt(s, 10)`: skip leading whitespace,
accept an optional sign, read the leading digit run and ignore trailing
text; `none` stands for NaN. -/
def parseIntJs (s : String) : Option Int :=
  let l := s.data.dropWhile fun c =>
    c = ' ' ∨ c = '\t' ∨ c = '\n' ∨ c = '\r'
  match l with
  | '-' :: rest => (parseDigits rest).map fun n => -(n : Int)
  | '+' :: rest => (parseDigits rest).map fun n => (n : Int)
  | _ => (parseDigits l).map fun n => (n : Int)

example : parseIntJs "3600" = some 3600 := by decide
example : parseIntJs "xyz" = none := by decide
example : parseIntJs "-5" = some (-5) := by decide

/-! ## mDNS-backed provider (MdnsBasedDaprApplicationProvider) -/

/-- Character-level splitter underlying `splitEq` (kernel-reducible, unlike
the library's string splitter). -/
def splitChars (sep : Char) : List Char → List (List Char)
  | [] => [[]]
  | c :: rest =>
    let r := splitChars sep rest
    if c = sep then [] :: r
    else
      match r with
      | [] => [[c]]
      | h :: t => (c :: h) :: t

/-- Embedding of JavaScript `t.split('=')`. -/
def splitEq (t : String) : List String :=
  (splitChars '=' t.data).map fun l => String.mk l

example : splitEq "appId=a" = ["appId", "a"] := by decide
example : splitEq "a=b=c" = ["a", "b", "c"] := by decide
example : splitEq "" = [""] := by decide

/-- The `parsedText` computation of
`MdnsBasedDaprApplicationProvider.toApplication`: split every TXT entry on
`=` and keep the pairs. -/
def txtPairs (service : MdnsService) : List (List String) :=
  (service.text.map splitEq).filter fun t => t.length == 2

/-- Lookup of one TXT key, as written twice in `toApplication`:
`parsedText.find(t => t[0] === key)?.[1]`. -/
def txtValue (service : MdnsService) (key : String) : Option String :=
  ((txtPairs service).find? fun t => t.getD 0 "" == key).bind fun t =>
    t.get? 1

/-- Embedding of `MdnsBasedDaprApplicationProvider.toApplication`: a
descriptor is returned when both extracted values are truthy (present and
non-empty); the port value goes through `parseInt` unvalidated. -/
def toApplicationMdns (service : MdnsService) : Option DaprApplication :=
  match txtValue service "appId", txtValue service "httpPort" with
  | some appId, some httpPort =>
    if appId ≠ "" ∧ httpPort ≠ "" then
      some { appId := appId, httpPort := parseIntJs httpPort, pid := none }
    else none
  | _, _ => none

/-- Embedding of `Array.prototype.findIndex` (with `-1` embedded as
`none`). -/
def findIdxJs {α : Type} (p : α → Bool) : List α → Option Nat
  | [] => none
  | a :: rest => if p a then some 0 else (findIdxJs p rest).map (· + 1)

/-- Embedding of the provider's `onServiceUp` handler: translate the
service; on success, replace the entry with the same `appId` or append,
then fire `onDidChange` once.  Returns the new list and the number of
`onDidChange` firings. -/
def onServiceUpHandler (apps : List DaprApplication) (service : MdnsService) :
    List DaprApplication × Nat :=
  match toApplicationMdns service with
  | some app =>
    match findIdxJs (fun a => a.appId == app.appId) apps with
    | some i => (apps.set i app, 1)
    | none => (apps ++ [app], 1)
  | none => (apps, 0)

/-- Embedding of the provider's `onServiceDown` handler: translate the
service; on a match, `applications.splice(index)` — which, called with a
single argument, removes the matched element *and everything after it* —
then fire; one more unconditional fire follows.  Returns the new list and
the number of `onDidChange` firings. -/
def onServiceDownHandler (apps : List DaprApplication)
    (service : MdnsService) : List DaprApplication × Nat :=
  match toApplicationMdns service with
  | some app =>
    match findIdxJs (fun a => a.appId == app.appId) apps with
    | some i => (apps.take i, 1 + 1)
    | none => (apps, 1)
  | none => (apps, 1)

example :
    toApplicationMdns ⟨"", "h", "svcA", 1, ["appId=a", "httpPort=80"]⟩ =
    some { appId := "a", httpPort := some 80, pid := none } := by decide

/-! ## Process-backed provider: command-line parsing

The two regular expressions of the source,
`--app-id "?(?<appId>[a-zA-Z0-9_-]+)"?` and
`--dapr-http-port "?(?<port>\d+)"?`, share one shape: a literal flag text
ending in a space, an optional double quote, a nonempty greedy run over a
character class (which excludes the quote), and an optional closing quote
that always matches.  `regexExec` embeds `RegExp.prototype.exec` for that
shape: it returns the capture of the leftmost match.
-/

/-- Character class `[a-zA-Z0-9_-]` of the app-id regex. -/
def isIdChar (c : Char) : Bool :=
  c.isAlphanum || c == '_' || c == '-'

/-- Pattern-at-head test: `leadMatch pat l` holds when `pat` begins `l`. -/
def leadMatch : List Char → List Char → Bool
  | [], _ => true
  | _ :: _, [] => false
  | a :: as, b :: bs => a == b && leadMatch as bs

/-- Substring search used to state the absence of a flag: does `pat` occur
anywhere in `l`? -/
def subSearch (pat : List Char) : List Char → Bool
  | [] => leadMatch pat []
  | c :: rest => leadMatch pat (c :: rest) || subSearch pat rest

/-- Remainder of the regex after the literal flag: an optional opening
quote (consumed only when a class character follows, as backtracking over
the quote cannot succeed since the class excludes `"`), then the maximal
nonempty run of class characters. -/
def captureAfter (cls : Char → Bool) (l : List Char) : Option (List Char) :=
  match l with
  | [] => none
  | c :: rest =>
    if c = '"' then
      let ds := rest.takeWhile cls
      if ds.isEmpty then none else some ds
    else
      let ds := (c :: rest).takeWhile cls
      if ds.isEmpty then none else some ds

/-- Leftmost-match semantics of `exec`: try the pattern at every start
position in order and return the first capture. -/
def regexExec (flag : List Char) (cls : Char → Bool) :
    List Char → Option (List Char)
  | [] => none
  | c :: rest =>
    if leadMatch flag (c :: rest) then
      match captureAfter cls (List.drop flag.length (c :: rest)) with
      | some ds => some ds
      | none => regexExec flag cls rest
    else regexExec flag cls rest

/-- Embedding of `getAppId`: the `appId` capture of the first match of
`--app-id "?(?<appId>[a-zA-Z0-9_-]+)"?`, or `undefined`. -/
def getAppId (cmd : String) : Option String :=
  (regexExec "--app-id ".data isIdChar cmd.data).map fun ds => String.mk ds

/-- Embedding of `getHttpPort`: `parseInt` of the `port` capture of the
first match of `--dapr-http-port "?(?<port>\d+)"?`, or the default 3500
when the regex does not match. -/
def getHttpPort (cmd : String) : Option Int :=
  match regexExec "--dapr-http-port ".data Char.isDigit cmd.data with
  | some ds => parseIntJs (String.mk ds)
  | none => some 3500

/-- Embedding of the module-level `toApplication(cmd, pid)` of the
process-backed provider: truthy command line, truthy extracted app id. -/
def toApplication (cmd : Option String) (pid : Int) : Option DaprApplication :=
  match cmd with
  | some c =>
    if c ≠ "" then
      match getAppId c with
      | some appId =>
        if appId ≠ "" then
          some { appId := appId, httpPort := getHttpPort c, pid := some pid }
        else none
      | none => none
    else none
  | none => none

example : getAppId "daprd --app-id \"orders\" --dapr-http-port \"3600\"" =
    some "orders" := by decide
example : getHttpPort "daprd --app-id \"orders\" --dapr-http-port \"3600\"" =
    some 3600 := by decide
example : getAppId "daprd" = none := by decide
example : getHttpPort "daprd --app-id foo" = some 3500 := by decide

/-! ## Process-backed provider: refresh state machine

`ProcessBasedDaprApplicationProvider` keeps `applications` and an in-flight
marker `currentRefresh`.  Between top-level calls only a *rejected* refresh
promise can remain stored in `currentRefresh` (the success path clears the
marker before returning), so the state stores the rejection reason.  The
outcome the underlying `listProcesses('daprd')` call would deliver is
passed explicitly as `fresh`; the boolean result records whether a new
process listing was started by the call.
-/

/-- One entry of the process lister's result. -/
structure ProcessInfo where
  pid : Int
  cmd : Option String
deriving DecidableEq, Repr

/-- Provider state: the cached application list (absent before the first
successful refresh) and the stored rejected refresh, if any. -/
structure ProcProviderState where
  applications : Option (List DaprApplication)
  currentRefresh : Option String
deriving DecidableEq, Repr

/-- The list rebuild of `onRefresh`: map `toApplication` over the processes
and drop the undefined results. -/
def rebuildApps (ps : List ProcessInfo) : List DaprApplication :=
  ps.filterMap fun p => toApplication p.cmd p.pid

/-- Embedding of `refreshApplications`: reuse a stored in-flight refresh,
otherwise start `onRefresh` with the fresh lister outcome.  Awaiting a
rejected refresh rethrows before the `currentRefresh = undefined` line
runs, so the marker survives a failure. -/
def refreshApplications (st : ProcProviderState)
    (fresh : Except String (List ProcessInfo)) :
    ProcProviderState × Except String Unit × Bool :=
  match st.currentRefresh with
  | some e => (st, .error e, false)
  | none =>
    match fresh with
    | .ok ps =>
      ({ st with applications := some (rebuildApps ps),
                 currentRefresh := none }, .ok (), true)
    | .error e => ({ st with currentRefresh := some e }, .error e, true)

/-- Embedding of `getApplications(refresh)`: refresh when the list is
absent or a refresh is forced, propagating a refresh failure; otherwise
return the cached list (`?? []`). -/
def getApplications (st : ProcProviderState) (refresh : Bool)
    (fresh : Except String (List ProcessInfo)) :
    ProcProviderState × Except String (List DaprApplication) × Bool :=
  if st.applications = none ∨ refresh = true then
    match refreshApplications st fresh with
    | (st1, .ok _, b) => (st1, .ok (st1.applications.getD []), b)
    | (st1, .error e, b) => (st1, .error e, b)
  else (st, .ok (st.applications.getD []), false)

example :
    refreshApplications ⟨some [], some "boom"⟩ (.ok []) =
    (⟨some [], some "boom"⟩, .error "boom", false) := rfl

/-! ## Registry lemmas -/

theorem regFind_cons_ne {k n : String} {v : MdnsService} {reg : Registry}
    (h : k ≠ n) : regFind n ((k, v) :: reg) = regFind n reg := by
  simp [regFind, h]

theorem regFind_mem {n : String} {v : MdnsService} {reg : Registry}
    (h : regFind n reg = some v) : (n, v) ∈ reg := by
  induction reg with
  | nil => simp [regFind] at h
  | cons p rest ih =>
    obtain ⟨k, w⟩ := p
    by_cases hk : k = n
    · subst hk
      simp [regFind] at h
      simp [h]
    · rw [regFind_cons_ne hk] at h
      exact List.mem_cons_of_mem _ (ih h)

theorem mem_removeKey {n : String} {p : String × MdnsService}
    {reg : Registry} (h : p ∈ removeKey n reg) : p ∈ reg := by
  induction reg with
  | nil => simp [removeKey] at h
  | cons q rest ih =>
    obtain ⟨k, w⟩ := q
    by_cases hk : k = n
    · simp [removeKey, hk] at h
      exact List.mem_cons_of_mem _ (ih h)
    · simp [removeKey, hk] at h
      rcases h with h | h
      · simp [h]
      · exact List.mem_cons_of_mem _ (ih h)

theorem regFind_removeKey_self (n : String) (reg : Registry) :
    regFind n (removeKey n reg) = none := by
  induction reg with
  | nil => rfl
  | cons q rest ih =>
    obtain ⟨k, w⟩ := q
    by_cases hk : k = n
    · simp [removeKey, hk, ih]
    · simp [removeKey, regFind, hk, ih]

theorem regFind_removeKey_ne {k n : String} (h : k ≠ n) (reg : Registry) :
    regFind n (removeKey k reg) = regFind n reg := by
  induction reg with
  | nil => rfl
  | cons q rest ih =>
    obtain ⟨k1, w⟩ := q
    by_cases hk : k1 = k
    · subst hk
      simp [removeKey, regFind, h, ih]
    · by_cases hn : k1 = n
      · subst hn
        simp [removeKey, regFind, hk, Ne.symm h, ih]
      · simp [removeKey, regFind, hk, hn, ih]

theorem regFind_none_removeKey {n : String} {reg : Registry} (k : String)
    (h : regFind n reg = none) : regFind n (removeKey k reg) = none := by
  by_cases hk : k = n
  · subst hk; exact regFind_removeKey_self _ _
  · rw [regFind_removeKey_ne hk]; exact h

/-! ## Resolution-fold lemmas -/

theorem srvFold_name (l : List Answer) :
    ∀ s : MdnsService, (srvFold s l).name = s.name := by
  induction l with
  | nil => intro s; rfl
  | cons a rest ih =>
    intro s
    obtain ⟨an, t1, ard⟩ := a
    cases ard with
    | srv t p =>
      by_cases h : an = s.name <;> simp [srvFold, h, ih]
    | ptr t => simp [srvFold, ih]
    | txt e => simp [srvFold, ih]
    | addr x => simp [srvFold, ih]
    | other => simp [srvFold, ih]

theorem txtFold_keeps (l : List Answer) :
    ∀ s : MdnsService, (txtFold s l).name = s.name ∧
      (txtFold s l).fqdn = s.fqdn ∧ (txtFold s l).port = s.port := by
  induction l with
  | nil => intro s; exact ⟨rfl, rfl, rfl⟩
  | cons a rest ih =>
    intro s
    obtain ⟨an, t1, ard⟩ := a
    cases ard with
    | txt e =>
      by_cases h : an = s.name <;> simp [txtFold, h, ih]
    | ptr t => simp [txtFold, ih]
    | srv t p => simp [txtFold, ih]
    | addr x => simp [txtFold, ih]
    | other => simp [txtFold, ih]

theorem aFold_keeps (l : List Answer) :
    ∀ s : MdnsService, (aFold s l).name = s.name ∧
      (aFold s l).fqdn = s.fqdn ∧ (aFold s l).port = s.port := by
  induction l with
  | nil => intro s; exact ⟨rfl, rfl, rfl⟩
  | cons a rest ih =>
    intro s
    obtain ⟨an, t1, ard⟩ := a
    cases ard with
    | addr x =>
      by_cases h : an = s.fqdn <;> simp [aFold, h, ih]
    | ptr t => simp [aFold, ih]
    | srv t p => simp [aFold, ih]
    | txt e => simp [aFold, ih]
    | other => simp [aFold, ih]

theorem resolve_name (packet : List Answer) (s : MdnsService) :
    (resolveService packet s).name = s.name := by
  simp [resolveService, (aFold_keeps packet _).1, (txtFold_keeps packet _).1,
    srvFold_name]

theorem resolve_fqdn (packet : List Answer) (s : MdnsService) :
    (resolveService packet s).fqdn = (srvFold s packet).fqdn := by
  simp [resolveService, (aFold_keeps packet _).2.1,
    (txtFold_keeps packet _).2.1]

theorem resolve_port (packet : List Answer) (s : MdnsService) :
    (resolveService packet s).port = (srvFold s packet).port := by
  simp [resolveService, (aFold_keeps packet _).2.2,
    (txtFold_keeps packet _).2.2]

/-- The values the SRV loop leaves in `fqdn` and `port` either are the
initial ones or come verbatim from some SRV answer owned by the candidate
name. -/
theorem srvFold_origin (l : List Answer) :
    ∀ s : MdnsService,
      ((srvFold s l).fqdn = s.fqdn ∧ (srvFold s l).port = s.port) ∨
      ∃ a ∈ l, a.name = s.name ∧
        a.rdata = .srv (srvFold s l).fqdn (srvFold s l).port := by
  induction l with
  | nil => intro s; exact Or.inl ⟨rfl, rfl⟩
  | cons a rest ih =>
    intro s
    obtain ⟨an, t1, ard⟩ := a
    cases ard with
    | srv t p =>
      by_cases h : an = s.name
      · rw [show srvFold s (⟨an, t1, .srv t p⟩ :: rest) =
            srvFold { s with fqdn := t, port := p } rest by simp [srvFold, h]]
        rcases ih { s with fqdn := t, port := p } with ⟨h1, h2⟩ | ⟨b, hb, hbn, hbr⟩
        · refine Or.inr ⟨⟨an, t1, .srv t p⟩, List.mem_cons_self .., h, ?_⟩
          simp [h1, h2]
        · refine Or.inr ⟨b, List.mem_cons_of_mem _ hb, ?_, hbr⟩
          simpa using hbn
      · rw [show srvFold s (⟨an, t1, .srv t p⟩ :: rest) = srvFold s rest by
          simp [srvFold, h]]
        rcases ih s with hl | ⟨b, hb, hbn, hbr⟩
        · exact Or.inl hl
        · exact Or.inr ⟨b, List.mem_cons_of_mem _ hb, hbn, hbr⟩
    | ptr t =>
      rcases ih s with hl | ⟨b, hb, hbn, hbr⟩
      · exact Or.inl (by simpa [srvFold] using hl)
      · exact Or.inr ⟨b, List.mem_cons_of_mem _ hb, hbn, by
          simpa [srvFold] using hbr⟩
    | txt e =>
      rcases ih s with hl | ⟨b, hb, hbn, hbr⟩
      · exact Or.inl (by simpa [srvFold] using hl)
      · exact Or.inr ⟨b, List.mem_cons_of_mem _ hb, hbn, by
          simpa [srvFold] using hbr⟩
    | addr x =>
      rcases ih s with hl | ⟨b, hb, hbn, hbr⟩
      · exact Or.inl (by simpa [srvFold] using hl)
      · exact Or.inr ⟨b, List.mem_cons_of_mem _ hb, hbn, by
          simpa [srvFold] using hbr⟩
    | other =>
      rcases ih s with hl | ⟨b, hb, hbn, hbr⟩
      · exact Or.inl (by simpa [srvFold] using hl)
      · exact Or.inr ⟨b, List.mem_cons_of_mem _ hb, hbn, by
          simpa [srvFold] using hbr⟩

/-! ## PTR-scan lemmas -/

theorem ptrScan_blank (typ : String) (l : List Answer) :
    ∀ c ∈ (ptrScan typ l).1, c = blankService c.name := by
  induction l with
  | nil => simp [ptrScan]
  | cons a rest ih =>
    obtain ⟨an, t1, ard⟩ := a
    by_cases h : an = typ
    · cases ard with
      | ptr t =>
        by_cases ht : t1 ≠ 0
        · intro c hc
          simp [ptrScan, h, ht] at hc
          rcases hc with hc | hc
          · subst hc; rfl
          · exact ih c hc
        · intro c hc
          simp [ptrScan, h, ht] at hc
          exact ih c hc
      | srv t p => simpa [ptrScan, h] using ih
      | txt e => simpa [ptrScan, h] using ih
      | addr x => simpa [ptrScan, h] using ih
      | other => simpa [ptrScan, h] using ih
    · simpa [ptrScan, h] using ih

theorem ptr_mem_up {typ n : String} {t : Nat} {l : List Answer}
    (hm : (⟨typ, t, .ptr n⟩ : Answer) ∈ l) (ht : t ≠ 0) :
    blankService n ∈ (ptrScan typ l).1 := by
  induction l with
  | nil => simp at hm
  | cons a rest ih =>
    rcases List.mem_cons.1 hm with h | h
    · subst h
      simp [ptrScan, ht]
    · have hrest := ih h
      obtain ⟨an, t1, ard⟩ := a
      by_cases ha : an = typ
      · cases ard with
        | ptr tgt =>
          by_cases ht1 : t1 ≠ 0
          · simp [ptrScan, ha, ht1]
            exact Or.inr hrest
          · simpa [ptrScan, ha, ht1] using hrest
        | srv tgt p => simpa [ptrScan, ha] using hrest
        | txt e => simpa [ptrScan, ha] using hrest
        | addr x => simpa [ptrScan, ha] using hrest
        | other => simpa [ptrScan, ha] using hrest
      · simpa [ptrScan, ha] using hrest

theorem ptr_mem_down {typ n : String} {l : List Answer}
    (hm : (⟨typ, 0, .ptr n⟩ : Answer) ∈ l) :
    n ∈ (ptrScan typ l).2 := by
  induction l with
  | nil => simp at hm
  | cons a rest ih =>
    rcases List.mem_cons.1 hm with h | h
    · subst h
      simp [ptrScan]
    · have hrest := ih h
      obtain ⟨an, t1, ard⟩ := a
      by_cases ha : an = typ
      · cases ard with
        | ptr tgt =>
          by_cases ht1 : t1 ≠ 0
          · simpa [ptrScan, ha, ht1] using hrest
          · simp [ptrScan, ha, ht1]
            exact Or.inr hrest
        | srv tgt p => simpa [ptrScan, ha] using hrest
        | txt e => simpa [ptrScan, ha] using hrest
        | addr x => simpa [ptrScan, ha] using hrest
        | other => simpa [ptrScan, ha] using hrest
      · simpa [ptrScan, ha] using hrest

/-! ## Up-phase lemmas -/

theorem processUps_cons (packet : List Answer) (reg : Registry)
    (c : MdnsService) (rest : List MdnsService) :
    processUps packet reg (c :: rest) =
      if (resolveService packet c).fqdn ≠ "" ∧
          regFind (resolveService packet c).name reg = none then
        ((processUps packet
            (((resolveService packet c).name, resolveService packet c) :: reg)
            rest).1,
          resolveService packet c ::
            (processUps packet
              (((resolveService packet c).name, resolveService packet c) :: reg)
              rest).2)
      else processUps packet reg rest := rfl

/-- Names already present in the registry are untouched by the up phase
and never fire: this is the insert-if-absent guard. -/
theorem processUps_present {packet : List Answer} {n : String}
    {v : MdnsService} {reg : Registry} {cands : List MdnsService}
    (h : regFind n reg = some v) :
    regFind n (processUps packet reg cands).1 = some v ∧
    ∀ s ∈ (processUps packet reg cands).2, s.name ≠ n := by
  induction cands generalizing reg with
  | nil => exact ⟨h, by simp [processUps]⟩
  | cons c rest ih =>
    rw [processUps_cons]
    by_cases hcond : (resolveService packet c).fqdn ≠ "" ∧
        regFind (resolveService packet c).name reg = none
    · rw [if_pos hcond]
      have hne : (resolveService packet c).name ≠ n := by
        intro he
        rw [he, h] at hcond
        exact Option.noConfusion hcond.2
      have h2 : regFind n
          (((resolveService packet c).name, resolveService packet c) :: reg)
          = some v := by
        rw [regFind_cons_ne hne]; exact h
      obtain ⟨ha, hb⟩ := ih h2
      refine ⟨ha, ?_⟩
      intro x hx
      rcases List.mem_cons.1 hx with hx | hx
      · subst hx; exact hne
      · exact hb x hx
    · rw [if_neg hcond]
      exact ih h

/-- A fresh resolved candidate is inserted exactly once: the final up-phase
registry maps it to its resolved record, and it is the only up-event
carrying its name. -/
theorem processUps_fresh {packet : List Answer} {n : String}
    {reg : Registry} {cands : List MdnsService}
    (hreg : regFind n reg = none)
    (hblank : ∀ c ∈ cands, c = blankService c.name)
    (hmem : blankService n ∈ cands)
    (hres : (resolveService packet (blankService n)).fqdn ≠ "") :
    regFind n (processUps packet reg cands).1 =
      some (resolveService packet (blankService n)) ∧
    (processUps packet reg cands).2.filter (fun s => s.name == n) =
      [resolveService packet (blankService n)] := by
  induction cands generalizing reg with
  | nil => simp at hmem
  | cons c rest ih =>
    rw [processUps_cons]
    have hc := hblank c (List.mem_cons_self ..)
    have hrname : (resolveService packet c).name = c.name := by
      rw [resolve_name, hc]
    by_cases hcn : c.name = n
    · have hcb : c = blankService n := by rw [hc, hcn]
      subst hcb
      have hname : (resolveService packet (blankService n)).name = n :=
        resolve_name packet (blankService n)
      have hcond : (resolveService packet (blankService n)).fqdn ≠ "" ∧
          regFind (resolveService packet (blankService n)).name reg = none :=
        ⟨hres, by rw [hname]; exact hreg⟩
      rw [if_pos hcond]
      have h2 : regFind n
          (((resolveService packet (blankService n)).name,
            resolveService packet (blankService n)) :: reg)
          = some (resolveService packet (blankService n)) := by
        rw [hname]; simp [regFind]
      obtain ⟨ha, hb⟩ := @processUps_present packet _ _ _ rest h2
      refine ⟨ha, ?_⟩
      rw [List.filter_cons_of_pos (by simp [hname]),
        List.filter_eq_nil_iff.2 (by intro s hs; simpa using hb s hs)]
    · have hmem2 : blankService n ∈ rest := by
        rcases List.mem_cons.1 hmem with hx | hx
        · exact absurd (congrArg MdnsService.name hx.symm) (by simpa using hcn)
        · exact hx
      have hblank2 : ∀ x ∈ rest, x = blankService x.name := fun x hx =>
        hblank x (List.mem_cons_of_mem _ hx)
      have hne : (resolveService packet c).name ≠ n := by rw [hrname]; exact hcn
      by_cases hcond : (resolveService packet c).fqdn ≠ "" ∧
          regFind (resolveService packet c).name reg = none
      · rw [if_pos hcond]
        have hreg2 : regFind n
            (((resolveService packet c).name, resolveService packet c) :: reg)
            = none := by
          rw [regFind_cons_ne hne]; exact hreg
        obtain ⟨ha, hb⟩ := ih hreg2 hblank2 hmem2
        refine ⟨ha, ?_⟩
        rw [List.filter_cons_of_neg (by simp [hne]), hb]
      · rw [if_neg hcond]
        exact ih hreg hblank2 hmem2

/-- After the up phase, a resolved candidate's name is registered, whether
or not it was known before. -/
theorem processUps_keeps_some {packet : List Answer} {n : String}
    {reg : Registry} {cands : List MdnsService}
    (hblank : ∀ c ∈ cands, c = blankService c.name)
    (hmem : blankService n ∈ cands)
    (hres : (resolveService packet (blankService n)).fqdn ≠ "") :
    ∃ w, regFind n (processUps packet reg cands).1 = some w := by
  cases h : regFind n reg with
  | some v => exact ⟨v, (@processUps_present packet _ _ _ cands h).1⟩
  | none => exact ⟨_, (processUps_fresh h hblank hmem hres).1⟩

/-- The up phase inserts only pairs keyed by their record's name. -/
theorem processUps_wf {packet : List Answer} {reg : Registry}
    {cands : List MdnsService} (h : ∀ p ∈ reg, p.2.name = p.1) :
    ∀ p ∈ (processUps packet reg cands).1, p.2.name = p.1 := by
  induction cands generalizing reg with
  | nil => exact h
  | cons c rest ih =>
    rw [processUps_cons]
    by_cases hcond : (resolveService packet c).fqdn ≠ "" ∧
        regFind (resolveService packet c).name reg = none
    · rw [if_pos hcond]
      refine ih ?_
      intro p hp
      rcases List.mem_cons.1 hp with hp | hp
      · subst hp; rfl
      · exact h p hp
    · rw [if_neg hcond]
      exact ih h

/-- The up phase inserts only records with non-empty `fqdn`, and every
up-event carries a non-empty `fqdn`. -/
theorem processUps_inv {packet : List Answer} {reg : Registry}
    {cands : List MdnsService} (h : ∀ p ∈ reg, p.2.fqdn ≠ "") :
    (∀ p ∈ (processUps packet reg cands).1, p.2.fqdn ≠ "") ∧
    (∀ s ∈ (processUps packet reg cands).2, s.fqdn ≠ "") := by
  induction cands generalizing reg with
  | nil => exact ⟨h, by simp [processUps]⟩
  | cons c rest ih =>
    rw [processUps_cons]
    by_cases hcond : (resolveService packet c).fqdn ≠ "" ∧
        regFind (resolveService packet c).name reg = none
    · rw [if_pos hcond]
      have h2 : ∀ p ∈ ((resolveService packet c).name,
          resolveService packet c) :: reg, p.2.fqdn ≠ "" := by
        intro p hp
        rcases List.mem_cons.1 hp with hp | hp
        · subst hp; exact hcond.1
        · exact h p hp
      obtain ⟨ha, hb⟩ := ih h2
      refine ⟨ha, ?_⟩
      intro s hs
      rcases List.mem_cons.1 hs with hs | hs
      · subst hs; exact hcond.1
      · exact hb s hs
    · rw [if_neg hcond]
      exact ih h

/-! ## Down-phase lemmas -/

theorem processDowns_cons (reg : Registry) (n : String)
    (rest : List String) :
    processDowns reg (n :: rest) =
      match regFind n reg with
      | some s => ((processDowns (removeKey n reg) rest).1,
          s :: (processDowns (removeKey n reg) rest).2)
      | none => processDowns reg rest := rfl

/-- The down phase never introduces a registry entry. -/
theorem processDowns_none {n : String} {reg : Registry} {downs : List String}
    (h : regFind n reg = none) :
    regFind n (processDowns reg downs).1 = none := by
  induction downs generalizing reg with
  | nil => exact h
  | cons d rest ih =>
    rw [processDowns_cons]
    cases hd : regFind d reg with
    | some s =>
      simp only []
      exact ih (regFind_none_removeKey d h)
    | none =>
      simp only []
      exact ih h

/-- Every name staged as a down-candidate is absent from the final
registry. -/
theorem processDowns_removes {n : String} {reg : Registry}
    {downs : List String} (h : n ∈ downs) :
    regFind n (processDowns reg downs).1 = none := by
  induction downs generalizing reg with
  | nil => simp at h
  | cons d rest ih =>
    rw [processDowns_cons]
    cases hd : regFind d reg with
    | some s =>
      simp only []
      by_cases hdn : d = n
      · subst hdn
        exact processDowns_none (regFind_removeKey_self _ _)
      · rcases List.mem_cons.1 h with h1 | h1
        · exact absurd h1.symm hdn
        · exact ih h1
    | none =>
      simp only []
      by_cases hdn : d = n
      · subst hdn
        exact processDowns_none hd
      · rcases List.mem_cons.1 h with h1 | h1
        · exact absurd h1.symm hdn
        · exact ih h1

/-- A registered down-candidate fires a down-event carrying its stored
record (whose name matches the key in a well-keyed registry). -/
theorem processDowns_fires {n : String} {reg : Registry}
    {downs : List String} (h : n ∈ downs)
    (hwf : ∀ p ∈ reg, p.2.name = p.1)
    (hsome : ∃ w, regFind n reg = some w) :
    ∃ s ∈ (processDowns reg downs).2, s.name = n := by
  induction downs generalizing reg with
  | nil => simp at h
  | cons d rest ih =>
    rw [processDowns_cons]
    by_cases hdn : d = n
    · subst hdn
      obtain ⟨w, hw⟩ := hsome
      rw [hw]
      simp only []
      exact ⟨w, List.mem_cons_self .., hwf (d, w) (regFind_mem hw)⟩
    · have h1 : n ∈ rest := by
        rcases List.mem_cons.1 h with h1 | h1
        · exact absurd h1.symm hdn
        · exact h1
      cases hd : regFind d reg with
      | some s =>
        simp only []
        have hwf2 : ∀ p ∈ removeKey d reg, p.2.name = p.1 := fun p hp =>
          hwf p (mem_removeKey hp)
        have hsome2 : ∃ w, regFind n (removeKey d reg) = some w := by
          obtain ⟨w, hw⟩ := hsome
          exact ⟨w, by rw [regFind_removeKey_ne hdn]; exact hw⟩
        obtain ⟨x, hx, hxn⟩ := ih h1 hwf2 hsome2
        exact ⟨x, List.mem_cons_of_mem _ hx, hxn⟩
      | none =>
        simp only []
        exact ih h1 hwf hsome

/-- Names that are not down-candidates keep their registry binding through
the down phase. -/
theorem processDowns_skips {n : String} {reg : Registry}
    {downs : List String} (h : n ∉ downs) :
    regFind n (processDowns reg downs).1 = regFind n reg := by
  induction downs generalizing reg with
  | nil => rfl
  | cons d rest ih =>
    have hdn : d ≠ n := fun he => h (by rw [he]; exact List.mem_cons_self ..)
    have h1 : n ∉ rest := fun hr => h (List.mem_cons_of_mem _ hr)
    rw [processDowns_cons]
    cases hd : regFind d reg with
    | some s =>
      simp only []
      rw [ih h1, regFind_removeKey_ne hdn]
    | none =>
      simp only []
      exact ih h1

/-- The down phase only ever removes entries. -/
theorem processDowns_sub {reg : Registry} {downs : List String} :
    ∀ p ∈ (processDowns reg downs).1, p ∈ reg := by
  induction downs generalizing reg with
  | nil => exact fun p hp => hp
  | cons d rest ih =>
    rw [processDowns_cons]
    cases hd : regFind d reg with
    | some s =>
      simp only []
      exact fun p hp => mem_removeKey (ih p hp)
    | none =>
      simp only []
      exact ih

/-! ## Packet-processing claims -/

theorem onResponse_eq (typ : String) (reg : Registry) (packet : List Answer) :
    onResponse typ reg packet =
      ((processDowns (processUps packet reg (ptrScan typ packet).1).1
          (ptrScan typ packet).2).1,
        (processUps packet reg (ptrScan typ packet).1).2,
        (processDowns (processUps packet reg (ptrScan typ packet).1).1
          (ptrScan typ packet).2).2) := rfl

/-- Example input for C1: a packet advertising `svcA` (nonzero-TTL PTR for
the bound type plus a matching SRV) arriving while `svcA` is already
registered. -/
def c1packet : List Answer :=
  [⟨"t", 120, .ptr "svcA"⟩, ⟨"svcA", 120, .srv "host.local" 50001⟩]

/-- The record already registered for `svcA` in the C1 counterexample. -/
def c1old : MdnsService := ⟨"", "old.local", "svcA", 1, []⟩

/-- C1 counterexample: the packet satisfies the claim's premises (a
nonzero-TTL PTR owned by the bound type `"t"` together with an SRV owned by
the PTR target), yet processing it against a registry that already knows
`svcA` fires no `onServiceUp` at all — not exactly one. -/
theorem c1_counterexample :
    ((⟨"t", 120, .ptr "svcA"⟩ : Answer) ∈ c1packet ∧ (120 : Nat) ≠ 0 ∧
      (⟨"svcA", 120, .srv "host.local" 50001⟩ : Answer) ∈ c1packet) ∧
    (onResponse "t" [("svcA", c1old)] c1packet).2.1 = [] := by decide

/-- C1 (amended): if additionally the PTR target is not yet registered, the
candidate resolves to a non-empty `fqdn`, and no zero-TTL PTR for the same
name shares the packet, then exactly one `onServiceUp` fires for that name,
its `fqdn`/`port` come verbatim from a matching SRV answer, and the
registry afterwards maps the name to the fired record. -/
theorem c1_amended (typ : String) (reg : Registry) (packet : List Answer)
    (n : String) (t : Nat)
    (hup : (⟨typ, t, .ptr n⟩ : Answer) ∈ packet) (ht : t ≠ 0)
    (hres : (resolveService packet (blankService n)).fqdn ≠ "")
    (hnew : regFind n reg = none)
    (hnodown : n ∉ (ptrScan typ packet).2) :
    (onResponse typ reg packet).2.1.filter (fun s => s.name == n) =
      [resolveService packet (blankService n)] ∧
    regFind n (onResponse typ reg packet).1 =
      some (resolveService packet (blankService n)) ∧
    ∃ a ∈ packet, a.name = n ∧
      a.rdata = .srv (resolveService packet (blankService n)).fqdn
        (resolveService packet (blankService n)).port := by
  have hupm := ptr_mem_up hup ht
  have hblank := ptrScan_blank typ packet
  obtain ⟨ha, hb⟩ := processUps_fresh hnew hblank hupm hres
  refine ⟨hb, ?_, ?_⟩
  · show regFind n (processDowns
        (processUps packet reg (ptrScan typ packet).1).1
        (ptrScan typ packet).2).1 = _
    rw [processDowns_skips hnodown]
    exact ha
  · have h1 : (resolveService packet (blankService n)).fqdn =
        (srvFold (blankService n) packet).fqdn := resolve_fqdn ..
    have h2 : (resolveService packet (blankService n)).port =
        (srvFold (blankService n) packet).port := resolve_port ..
    rcases srvFold_origin packet (blankService n) with ⟨hf, _⟩ |
      ⟨b, hbm, hbn, hbr⟩
    · exact absurd (by rw [h1, hf]; rfl) hres
    · rw [← h1, ← h2] at hbr
      exact ⟨b, hbm, by simpa [blankService] using hbn, hbr⟩

/-- C1 amended, witnessed at a concrete fresh packet. -/
theorem c1_witness :
    (onResponse "t" [] c1packet).2.1.filter (fun s => s.name == "svcA") =
      [resolveService c1packet (blankService "svcA")] ∧
    regFind "svcA" (onResponse "t" [] c1packet).1 =
      some (resolveService c1packet (blankService "svcA")) ∧
    ∃ a ∈ c1packet, a.name = "svcA" ∧
      a.rdata = .srv (resolveService c1packet (blankService "svcA")).fqdn
        (resolveService c1packet (blankService "svcA")).port :=
  c1_amended "t" [] c1packet "svcA" 120 (by decide) (by decide) (by decide)
    (by decide) (by decide)

/-- C2: when a name is both a resolvable up-candidate and a down-candidate
in one packet, the ups run first, so the name is absent from the final
registry and a down-event fires for it. -/
theorem c2_up_then_down (typ : String) (reg : Registry)
    (packet : List Answer) (n : String) (t : Nat)
    (hwf : ∀ p ∈ reg, p.2.name = p.1)
    (hup : (⟨typ, t, .ptr n⟩ : Answer) ∈ packet) (ht : t ≠ 0)
    (hdown : (⟨typ, 0, .ptr n⟩ : Answer) ∈ packet)
    (hres : (resolveService packet (blankService n)).fqdn ≠ "") :
    regFind n (onResponse typ reg packet).1 = none ∧
    ∃ s ∈ (onResponse typ reg packet).2.2, s.name = n := by
  have hupm := ptr_mem_up hup ht
  have hdownm := ptr_mem_down hdown
  have hblank := ptrScan_blank typ packet
  constructor
  · show regFind n (processDowns
        (processUps packet reg (ptrScan typ packet).1).1
        (ptrScan typ packet).2).1 = none
    exact processDowns_removes hdownm
  · show ∃ s ∈ (processDowns
        (processUps packet reg (ptrScan typ packet).1).1
        (ptrScan typ packet).2).2, s.name = n
    exact processDowns_fires hdownm (processUps_wf hwf)
      (processUps_keeps_some hblank hupm hres)

/-- Example packet for C2: `s` is advertised (PTR + SRV) and withdrawn
(zero-TTL PTR) in the same packet. -/
def c2packet : List Answer :=
  [⟨"t", 120, .ptr "s"⟩, ⟨"s", 120, .srv "h" 1⟩, ⟨"t", 0, .ptr "s"⟩]

/-- C2 witnessed at a concrete add-then-remove packet. -/
theorem c2_witness :
    regFind "s" (onResponse "t" [] c2packet).1 = none ∧
    ∃ s ∈ (onResponse "t" [] c2packet).2.2, s.name = "s" :=
  c2_up_then_down "t" [] c2packet "s" 120 (by simp) (by decide) (by decide)
    (by decide) (by decide)

/-- C3: a resolved candidate whose name is already registered neither
overwrites the stored entry (the up phase leaves the binding untouched)
nor fires any `onServiceUp` for that name. -/
theorem c3_up_edge_idempotent (typ : String) (reg : Registry)
    (packet : List Answer) (n : String) (v : MdnsService)
    (hpresent : regFind n reg = some v)
    (hcand : blankService n ∈ (ptrScan typ packet).1)
    (hres : (resolveService packet (blankService n)).fqdn ≠ "") :
    regFind n (processUps packet reg (ptrScan typ packet).1).1 = some v ∧
    ∀ s ∈ (onResponse typ reg packet).2.1, s.name ≠ n := by
  obtain ⟨ha, hb⟩ := @processUps_present packet _ _ _ (ptrScan typ packet).1
    hpresent
  exact ⟨ha, hb⟩

/-- Registry and packet for the C3 witness: `s` is already registered and
gets re-advertised with a different SRV. -/
def c3reg : Registry := [("s", ⟨"", "h0", "s", 9, []⟩)]

/-- C3 witnessed at a concrete re-announcement. -/
theorem c3_witness :
    regFind "s" (processUps c2packet c3reg (ptrScan "t" c2packet).1).1 =
      some ⟨"", "h0", "s", 9, []⟩ ∧
    ∀ s ∈ (onResponse "t" c3reg c2packet).2.1, s.name ≠ "s" :=
  c3_up_edge_idempotent "t" c3reg c2packet "s" ⟨"", "h0", "s", 9, []⟩
    (by decide) (by decide) (by decide)

/-- C4: if every registry entry has a non-empty `fqdn`, processing any
packet preserves that invariant, every fired up-event has a non-empty
`fqdn` (unresolved candidates never enter the registry and never fire),
and `stop()` trivially preserves it by clearing the registry. -/
theorem c4_resolved_invariant (typ : String) (reg : Registry)
    (packet : List Answer) (hinv : ∀ p ∈ reg, p.2.fqdn ≠ "") :
    (∀ p ∈ (onResponse typ reg packet).1, p.2.fqdn ≠ "") ∧
    (∀ s ∈ (onResponse typ reg packet).2.1, s.fqdn ≠ "") ∧
    (∀ p ∈ stopRegistry, p.2.fqdn ≠ "") := by
  obtain ⟨ha, hb⟩ := @processUps_inv packet _ (ptrScan typ packet).1 hinv
  refine ⟨?_, hb, by simp [stopRegistry]⟩
  intro p hp
  exact ha p (processDowns_sub p hp)

/-- C4 witnessed at a concrete registry and packet. -/
theorem c4_witness :
    (∀ p ∈ (onResponse "t" c3reg c2packet).1, p.2.fqdn ≠ "") ∧
    (∀ s ∈ (onResponse "t" c3reg c2packet).2.1, s.fqdn ≠ "") ∧
    (∀ p ∈ stopRegistry, p.2.fqdn ≠ "") :=
  c4_resolved_invariant "t" c3reg c2packet (by decide)

/-- C5: a zero-TTL PTR for an unregistered name is skipped silently — the
down step leaves registry and event list unchanged, and a packet holding
only that record produces no event and no registry mutation. -/
theorem c5_unknown_down_noop (typ : String) (reg : Registry) (n : String)
    (rest : List String) (h : regFind n reg = none) :
    processDowns reg (n :: rest) = processDowns reg rest ∧
    onResponse typ reg [⟨typ, 0, .ptr n⟩] = (reg, [], []) := by
  constructor
  · rw [processDowns_cons, h]
  · rw [onResponse_eq]
    simp [ptrScan, processUps, processDowns_cons, h, processDowns]

/-- C5 witnessed at a concrete unknown name. -/
theorem c5_witness :
    processDowns c3reg ["x"] = processDowns c3reg [] ∧
    onResponse "t" c3reg [⟨"t", 0, .ptr "x"⟩] = (c3reg, [], []) :=
  c5_unknown_down_noop "t" c3reg "x" [] (by decide)

/-! ## mDNS-backed provider claims -/

/-- Concrete application entries for the provider claims. -/
def appA : DaprApplication := ⟨"a", some 80, none⟩

/-- Second concrete application entry, `appId` different from `appA`. -/
def appB : DaprApplication := ⟨"b", some 81, none⟩

/-- A down-event service translating to `appId = "a"`. -/
def svcDownA : MdnsService := ⟨"", "h", "svcA", 1, ["appId=a", "httpPort=80"]⟩

theorem findIdxJs_lt {α : Type} {p : α → Bool} {l : List α} {i : Nat}
    (h : findIdxJs p l = some i) : i < l.length := by
  induction l generalizing i with
  | nil => simp [findIdxJs] at h
  | cons a rest ih =>
    by_cases hp : p a
    · simp [findIdxJs, hp] at h
      simp only [List.length_cons]
      omega
    · simp [findIdxJs, hp] at h
      obtain ⟨j, hj, hji⟩ := h
      have := ih hj
      simp only [List.length_cons]
      omega

theorem take_ne_self {α : Type} {l : List α} {i : Nat} (h : i < l.length) :
    l.take i ≠ l := by
  intro he
  have := congrArg List.length he
  simp [List.length_take] at this
  omega

/-- C6 (code bug): the down handler matched `appA` at index 0, but
`applications.splice(index)` with a single argument removes the match and
everything after it, so `appB` is dropped too; the intended single-element
removal would have left `[appB]`. -/
theorem c6_splice_truncates :
    toApplicationMdns svcDownA = some appA ∧
    onServiceDownHandler [appA, appB] svcDownA = ([], 2) ∧
    (onServiceDownHandler [appA, appB] svcDownA).1 ≠ [appB] := by decide

/-- C7 counterexample: a down-event that removes its match fires the
change notification twice (once inside the removal branch, once
unconditionally), not exactly once. -/
theorem c7_counterexample :
    onServiceDownHandler [appA] svcDownA = ([], 2) ∧
    ([] : List DaprApplication) ≠ [appA] := by decide

/-- C7 (amended): an up-event that changes the application list fires
exactly one change notification, while a down-event fires twice when it
changes the list and once when it does not. -/
theorem c7_amended (apps : List DaprApplication) (svc : MdnsService) :
    ((onServiceUpHandler apps svc).1 ≠ apps →
      (onServiceUpHandler apps svc).2 = 1) ∧
    ((onServiceDownHandler apps svc).1 ≠ apps →
      (onServiceDownHandler apps svc).2 = 2) ∧
    ((onServiceDownHandler apps svc).1 = apps →
      (onServiceDownHandler apps svc).2 = 1) := by
  cases h : toApplicationMdns svc with
  | none =>
    refine ⟨?_, ?_, ?_⟩
    · intro hne
      exact absurd (by simp [onServiceUpHandler, h]) hne
    · intro hne
      exact absurd (by simp [onServiceDownHandler, h]) hne
    · intro _
      simp [onServiceDownHandler, h]
  | some app =>
    cases hi : findIdxJs (fun a => a.appId == app.appId) apps with
    | none =>
      refine ⟨?_, ?_, ?_⟩
      · intro _
        simp [onServiceUpHandler, h, hi]
      · intro hne
        exact absurd (by simp [onServiceDownHandler, h, hi]) hne
      · intro _
        simp [onServiceDownHandler, h, hi]
    | some i =>
      refine ⟨?_, ?_, ?_⟩
      · intro _
        simp [onServiceUpHandler, h, hi]
      · intro _
        simp [onServiceDownHandler, h, hi]
      · intro heq
        have hne : apps.take i ≠ apps := take_ne_self (findIdxJs_lt hi)
        have : (onServiceDownHandler apps svc).1 = apps.take i := by
          simp [onServiceDownHandler, h, hi]
        rw [this] at heq
        exact absurd heq hne

/-- C7 amended, witnessed: an insert fires once, a removal fires twice, a
non-matching down-event fires once. -/
theorem c7_witness :
    (onServiceUpHandler [] svcDownA).2 = 1 ∧
    (onServiceDownHandler [appA] svcDownA).2 = 2 ∧
    (onServiceDownHandler [appB] svcDownA).2 = 1 :=
  ⟨(c7_amended [] svcDownA).1 (by decide),
    (c7_amended [appA] svcDownA).2.1 (by decide),
    (c7_amended [appB] svcDownA).2.2 (by decide)⟩

/-- TXT content for the C8 claims: both keys present, port unparseable. -/
def c8svc : MdnsService := ⟨"", "h", "s", 0, ["appId=a", "httpPort=xyz"]⟩

/-- C8 counterexample: a TXT set whose `httpPort` value does not parse as
an integer still yields a descriptor (with NaN port), instead of being
excluded as the claim demands. -/
theorem c8_counterexample :
    txtValue c8svc "httpPort" = some "xyz" ∧
    parseIntJs "xyz" = none ∧
    toApplicationMdns c8svc = some ⟨"a", none, none⟩ := by decide

/-- C8 (amended): a descriptor is produced iff the TXT pairs contain both
an `appId` key and an `httpPort` key with non-empty values; the port value
is handed to `parseInt` unvalidated, so unparseable or negative values are
not excluded. -/
theorem c8_amended (service : MdnsService) :
    ((toApplicationMdns service).isSome ↔
      ∃ a p, txtValue service "appId" = some a ∧ a ≠ "" ∧
        txtValue service "httpPort" = some p ∧ p ≠ "") ∧
    ∀ d, toApplicationMdns service = some d →
      ∃ a p, txtValue service "appId" = some a ∧
        txtValue service "httpPort" = some p ∧
        d = ⟨a, parseIntJs p, none⟩ := by
  cases ha : txtValue service "appId" with
  | none => simp [toApplicationMdns, ha]
  | some a =>
    cases hp : txtValue service "httpPort" with
    | none => simp [toApplicationMdns, ha, hp]
    | some p =>
      by_cases hcond : a ≠ "" ∧ p ≠ ""
      · refine ⟨?_, ?_⟩
        · simp only [toApplicationMdns, ha, hp]
          rw [if_pos hcond]
          constructor
          · intro _
            exact ⟨a, p, rfl, hcond.1, rfl, hcond.2⟩
          · intro _
            rfl
        · intro d hd
          simp only [toApplicationMdns, ha, hp] at hd
          rw [if_pos hcond] at hd
          exact ⟨a, p, rfl, rfl, (Option.some_injective _ hd).symm⟩
      · refine ⟨?_, ?_⟩
        · simp only [toApplicationMdns, ha, hp]
          rw [if_neg hcond]
          simp only [Option.isSome_none, Bool.false_eq_true, false_iff]
          rintro ⟨a1, p1, ha1, hne1, hp1, hne2⟩
          obtain rfl : a = a1 := Option.some_injective _ ha1
          obtain rfl : p = p1 := Option.some_injective _ hp1
          exact hcond ⟨hne1, hne2⟩
        · intro d hd
          simp only [toApplicationMdns, ha, hp] at hd
          rw [if_neg hcond] at hd
          exact absurd hd (by simp)

/-- C8 amended, witnessed at the unparseable-port TXT set. -/
theorem c8_witness :
    ∃ a p, txtValue c8svc "appId" = some a ∧
      txtValue c8svc "httpPort" = some p ∧
      (⟨"a", none, none⟩ : DaprApplication) = ⟨a, parseIntJs p, none⟩ :=
  (c8_amended c8svc).2 ⟨"a", none, none⟩ (by decide)

/-! ## Process-backed provider claims -/

theorem leadMatch_trans {p1 p2 l : List Char}
    (h1 : leadMatch p1 p2 = true) (h2 : leadMatch p2 l = true) :
    leadMatch p1 l = true := by
  induction p1 generalizing p2 l with
  | nil => rfl
  | cons a as ih =>
    cases p2 with
    | nil => simp [leadMatch] at h1
    | cons b bs =>
      cases l with
      | nil => simp [leadMatch] at h2
      | cons c cs =>
        simp [leadMatch] at h1 h2 ⊢
        exact ⟨h1.1.trans h2.1, ih h1.2 h2.2⟩

theorem subSearch_mono {p1 p2 : List Char} (h : leadMatch p1 p2 = true)
    {l : List Char} (hs : subSearch p2 l = true) :
    subSearch p1 l = true := by
  induction l with
  | nil => exact leadMatch_trans h hs
  | cons c rest ih =>
    simp [subSearch] at hs ⊢
    rcases hs with hs | hs
    · exact Or.inl (leadMatch_trans h hs)
    · exact Or.inr (ih hs)

/-- A successful `exec` implies the flag text occurs in the scanned
text. -/
theorem regexExec_sub {flag : List Char} {cls : Char → Bool}
    {l ds : List Char} (h : regexExec flag cls l = some ds) :
    subSearch flag l = true := by
  induction l with
  | nil => simp [regexExec] at h
  | cons c rest ih =>
    by_cases hm : leadMatch flag (c :: rest) = true
    · simp [subSearch, hm]
    · rw [regexExec, if_neg hm] at h
      simp [subSearch, ih h]

theorem captureAfter_ne_nil {cls : Char → Bool} {l ds : List Char}
    (h : captureAfter cls l = some ds) : ds ≠ [] := by
  cases l with
  | nil => simp [captureAfter] at h
  | cons c rest =>
    by_cases hq : c = '"'
    · rw [captureAfter] at h
      rw [if_pos hq] at h
      by_cases he : (rest.takeWhile cls).isEmpty
      · simp [he] at h
      · simp [he] at h
        rw [← h]
        simpa [List.isEmpty_iff] using he
    · rw [captureAfter] at h
      rw [if_neg hq] at h
      by_cases he : ((c :: rest).takeWhile cls).isEmpty
      · simp [he] at h
      · simp [he] at h
        rw [← h]
        simpa [List.isEmpty_iff] using he

/-- The regex capture groups are nonempty runs. -/
theorem regexExec_ne_nil {flag : List Char} {cls : Char → Bool}
    {l ds : List Char} (h : regexExec flag cls l = some ds) : ds ≠ [] := by
  induction l with
  | nil => simp [regexExec] at h
  | cons c rest ih =>
    by_cases hm : leadMatch flag (c :: rest) = true
    · rw [regexExec, if_pos hm] at h
      cases hc : captureAfter cls (List.drop flag.length (c :: rest)) with
      | some ds2 =>
        rw [hc] at h
        simp at h
        rw [← h]
        exact captureAfter_ne_nil hc
      | none =>
        rw [hc] at h
        exact ih h
    · rw [regexExec, if_neg hm] at h
      exact ih h

/-- C9: the sample command line parses to `orders`/3600; a command line
not containing `--app-id` yields no descriptor; a command line whose
`--app-id` flag matched but that does not contain `--dapr-http-port`
yields the matched id with the default port 3500. -/
theorem c9_cmdline :
    toApplication (some "daprd --app-id \"orders\" --dapr-http-port \"3600\"")
        7 = some ⟨"orders", some 3600, some 7⟩ ∧
    (∀ cmd : String, ∀ pid : Int,
      subSearch "--app-id".data cmd.data = false →
      toApplication (some cmd) pid = none) ∧
    (∀ cmd : String, ∀ pid : Int, ∀ a : String, getAppId cmd = some a →
      subSearch "--dapr-http-port".data cmd.data = false →
      toApplication (some cmd) pid = some ⟨a, some 3500, some pid⟩) := by
  refine ⟨by decide, ?_, ?_⟩
  · intro cmd pid hno
    have hg : getAppId cmd = none := by
      cases he : regexExec "--app-id ".data isIdChar cmd.data with
      | none => simp [getAppId, he]
      | some ds =>
        exfalso
        have h2 := subSearch_mono
          (show leadMatch "--app-id".data "--app-id ".data = true by decide)
          (regexExec_sub he)
        rw [hno] at h2
        exact Bool.noConfusion h2
    by_cases hc : cmd = ""
    · simp [toApplication, hc]
    · simp [toApplication, hc, hg]
  · intro cmd pid a hga hno
    have hds : ∃ ds, regexExec "--app-id ".data isIdChar cmd.data = some ds ∧
        a = String.mk ds := by
      cases he : regexExec "--app-id ".data isIdChar cmd.data with
      | none => simp [getAppId, he] at hga
      | some ds =>
        simp [getAppId, he] at hga
        exact ⟨ds, rfl, hga.symm⟩
    obtain ⟨ds, hde, hae⟩ := hds
    have hane : a ≠ "" := by
      rw [hae]
      intro h0
      exact regexExec_ne_nil hde (by simpa using congrArg String.data h0)
    have hcne : cmd ≠ "" := by
      intro h0
      rw [h0] at hde
      exact Option.noConfusion
        ((show regexExec "--app-id ".data isIdChar "".data = none by decide)
          ▸ hde)
    have hport : getHttpPort cmd = some 3500 := by
      cases hp : regexExec "--dapr-http-port ".data Char.isDigit cmd.data with
      | none => simp [getHttpPort, hp]
      | some ds2 =>
        exfalso
        have h2 := subSearch_mono
          (show leadMatch "--dapr-http-port".data "--dapr-http-port ".data =
            true by decide)
          (regexExec_sub hp)
        rw [hno] at h2
        exact Bool.noConfusion h2
    simp [toApplication, hcne, hga, hane, hport]

/-- C9 witnessed: no descriptor without `--app-id`; default port without
`--dapr-http-port`. -/
theorem c9_witness :
    toApplication (some "daprd") 1 = none ∧
    toApplication (some "x --app-id foo") 2 =
      some ⟨"foo", some 3500, some 2⟩ :=
  ⟨c9_cmdline.2.1 "daprd" 1 (by decide),
    c9_cmdline.2.2 "x --app-id foo" 2 "foo" (by decide) (by decide)⟩

/-- C10: a failed refresh stores the rejection in `currentRefresh` and
leaves the application list unchanged; from then on every
`refreshApplications` and forced `getApplications` call awaits the same
rejected refresh, starts no new process listing, and never changes the
state again. -/
theorem c10_refresh_stuck (st : ProcProviderState) (e : String)
    (fresh : Except String (List ProcessInfo)) :
    (st.currentRefresh = none →
      refreshApplications st (.error e) =
        ({ st with currentRefresh := some e }, .error e, true) ∧
      ({ st with currentRefresh := some e }).applications =
        st.applications) ∧
    (st.currentRefresh = some e →
      refreshApplications st fresh = (st, .error e, false) ∧
      getApplications st true fresh = (st, .error e, false) ∧
      ∀ fs : List (Except String (List ProcessInfo)),
        fs.foldl (fun s f => (refreshApplications s f).1) st = st) := by
  constructor
  · intro h
    exact ⟨by simp [refreshApplications, h], rfl⟩
  · intro h
    have h1 : refreshApplications st fresh = (st, .error e, false) := by
      simp [refreshApplications, h]
    refine ⟨h1, ?_, ?_⟩
    · simp [getApplications, h1]
    · intro fs
      induction fs with
      | nil => rfl
      | cons f rest ih =>
        simp only [List.foldl_cons]
        rw [show (refreshApplications st f).1 = st by
          simp [refreshApplications, h]]
        exact ih

/-- C10 witnessed: entering and staying in the stuck state at concrete
inputs. -/
theorem c10_witness :
    refreshApplications ⟨some [], none⟩ (.error "x") =
      (⟨some [], some "x"⟩, .error "x", true) ∧
    refreshApplications ⟨some [], some "boom"⟩ (.ok []) =
      (⟨some [], some "boom"⟩, .error "boom", false) ∧
    getApplications ⟨some [], some "boom"⟩ true (.ok []) =
      (⟨some [], some "boom"⟩, .error "boom", false) :=
  ⟨((c10_refresh_stuck ⟨some [], none⟩ "x" (.ok [])).1 rfl).1,
    ((c10_refresh_stuck ⟨some [], some "boom"⟩ "boom" (.ok [])).2 rfl).1,
    ((c10_refresh_stuck ⟨some [], some "boom"⟩ "boom" (.ok [])).2 rfl).2.1⟩

end Dapr
